import Mathlib

/-!
Verification of the study-platform backend's signaling relay and HTTP
room endpoints.

The relay model below is a shallow embedding of the Socket.IO handler
wiring in `src/unnamed/part_001` (lines 108-128):

  io.on('connection', (socket) => {
    socket.on('join-room', (roomId) => {
      socket.join(roomId);
      socket.on('webrtc-signal', (signal) => {
        socket.to(roomId).emit('webrtc-signal', signal);
      });
    });
    socket.on('disconnect', () => { ... });
  });

Socket.IO semantics embedded here:
  - `socket.join(roomId)` adds the socket's id to the adapter's room set
    (a JS Set: idempotent); a room is created on first join and the
    adapter deletes a room once its last socket leaves.
  - `socket.on(event, h)` is Node's EventEmitter `on`: each call APPENDS
    a listener, so each `join-room` event registers one more
    `webrtc-signal` listener closing over that join's `roomId`.
  - `socket.to(roomId).emit(ev, payload)` delivers `payload` to every
    socket currently in room `roomId` except the sender, whether or not
    the sender is itself in the room.
  - On disconnect the adapter removes the socket from every room
    (deleting rooms left empty) and all of the socket's listeners die
    with the socket.
-/

namespace StudyPlatform

/-- Socket (connection) identifier, as assigned by the transport. -/
abbrev ConnId := Nat

/-- Room (channel) name; an opaque client-supplied string. -/
abbrev RoomName := String

/-- Relay-layer state: the adapter's room-membership table (room name to
member list, members listed in join order, no duplicates) together with
the per-socket list of registered `webrtc-signal` listeners, each
recorded by the `roomId` it captured, in registration order. -/
structure RelayState where
  rooms : List (RoomName × List ConnId)
  handlers : List (ConnId × List RoomName)
deriving Repr, DecidableEq

/-- The empty relay state: no rooms, no listeners. -/
def RelayState.init : RelayState := ⟨[], []⟩

/-- First-match lookup of a room's member list (empty if the room is not
in the adapter's table). -/
def lookupRoom : List (RoomName × List ConnId) → RoomName → List ConnId
  | [], _ => []
  | (r', ms) :: rest, r => if r' = r then ms else lookupRoom rest r

/-- Members of room `r` in state `st`. -/
def roomMembers (st : RelayState) (r : RoomName) : List ConnId :=
  lookupRoom st.rooms r

/-- `socket.join(roomId)` on the adapter table: create the room with the
joining socket if absent; append the socket if not yet a member; no-op
if already a member (JS Set add). -/
def socketJoin : List (RoomName × List ConnId) → ConnId → RoomName →
    List (RoomName × List ConnId)
  | [], c, r => [(r, [c])]
  | (r', ms) :: rest, c, r =>
    if r' = r then
      (if c ∈ ms then (r', ms) :: rest else (r', ms ++ [c]) :: rest)
    else
      (r', ms) :: socketJoin rest c r

/-- First-match lookup of a socket's registered listener rooms. -/
def lookupHandlers : List (ConnId × List RoomName) → ConnId → List RoomName
  | [], _ => []
  | (c', rs) :: rest, c => if c' = c then rs else lookupHandlers rest c

/-- The list of `roomId`s captured by `c`'s registered `webrtc-signal`
listeners, in registration order. -/
def handlerRooms (st : RelayState) (c : ConnId) : List RoomName :=
  lookupHandlers st.handlers c

/-- `socket.on('webrtc-signal', ...)` during a `join-room` event:
append one listener capturing `r` to `c`'s listener list. -/
def addHandler : List (ConnId × List RoomName) → ConnId → RoomName →
    List (ConnId × List RoomName)
  | [], c, r => [(c, [r])]
  | (c', rs) :: rest, c, r =>
    if c' = c then (c', rs ++ [r]) :: rest
    else (c', rs) :: addHandler rest c r

/-- The `join-room` handler (part_001 lines 116-118): `socket.join(roomId)`
plus registration of one more `webrtc-signal` listener closing over
`roomId`. -/
def joinRoom (st : RelayState) (c : ConnId) (r : RoomName) : RelayState :=
  { rooms := socketJoin st.rooms c r
    handlers := addHandler st.handlers c r }

/-- Transport-level disconnect cleanup: the adapter removes the socket
from every room, deletes rooms left empty, and the socket's listeners
are gone with the socket. -/
def disconnect (st : RelayState) (c : ConnId) : RelayState :=
  { rooms := (st.rooms.map (fun p => (p.1, p.2.filter (· ≠ c)))).filter
      (fun p => !p.2.isEmpty)
    handlers := st.handlers.filter (fun p => p.1 ≠ c) }

/-- `socket.to(r).emit`'s recipient set: every current member of `r`
except the sender. -/
def socketTo (st : RelayState) (c : ConnId) (r : RoomName) : List ConnId :=
  (roomMembers st r).filter (fun d => d ≠ c)

/-- A `webrtc-signal` event from `c` carrying payload `s`: Node fires
every registered listener in registration order; each does
`socket.to(roomId).emit('webrtc-signal', signal)`. The result is the
list of (recipient, payload) deliveries. -/
def dispatchSignal {σ : Type} (st : RelayState) (c : ConnId) (s : σ) :
    List (ConnId × σ) :=
  (handlerRooms st c).flatMap (fun r => (socketTo st c r).map (fun d => (d, s)))

/-- A `webrtc-signal` event does not touch the membership/listener state:
the handler only emits. Returns the (unchanged) state and the deliveries. -/
def relayStep {σ : Type} (st : RelayState) (c : ConnId) (s : σ) :
    RelayState × List (ConnId × σ) :=
  (st, dispatchSignal st c s)

/-- The state-changing inbound events of the relay. -/
inductive Event where
  | join (c : ConnId) (r : RoomName)
  | disc (c : ConnId)
deriving Repr, DecidableEq

/-- One event step. -/
def step (st : RelayState) : Event → RelayState
  | .join c r => joinRoom st c r
  | .disc c => disconnect st c

/-- The relay state reached by a trace of events from the empty state. -/
def run (es : List Event) : RelayState :=
  es.foldl step RelayState.init

/-- The names of the currently active (nonempty) channels. -/
def activeChannels (st : RelayState) : List RoomName :=
  st.rooms.map Prod.fst

/-- Trace-level fold computing the `webrtc-signal` listener rooms of
connection `c`: each of `c`'s `join-room` events appends the joined
room; `c`'s disconnect destroys the socket and with it every listener. -/
def hFold (c : ConnId) : List Event → List RoomName → List RoomName
  | [], acc => acc
  | .join c' r :: rest, acc => hFold c rest (if c' = c then acc ++ [r] else acc)
  | .disc c' :: rest, acc => hFold c rest (if c' = c then [] else acc)

/-- The rooms named by `c`'s `join-room` events during its current
lifetime, in order, repeats included, read off the event trace. -/
def joinsOf (es : List Event) (c : ConnId) : List RoomName :=
  hFold c es []

/-! ### Connection admission (Token Verifier + handshake middleware) -/

/-- A user identity as encoded in a bearer token. -/
abbrev UserId := Nat

/-- The bearer token presented in the Socket.IO handshake, as the
verifier sees it: absent, malformed (not a well-formed signed token), or
a signed token carrying an identity, an expiry instant and a signature. -/
inductive TokenInput where
  | missing
  | malformed
  | signed (uid : UserId) (exp : Nat) (sig : Nat)
deriving Repr, DecidableEq

/-- Modelled from the spec: the signing function of the Token Verifier
(src/middleware/authMiddleware.js is not under src/). The issuer signs
(identity, expiry) with the secret; the verifier recomputes and compares. -/
def mkSig (secret : Nat) (uid : UserId) (exp : Nat) : Nat :=
  (secret + 1) * (2 * uid + 1) * (2 * exp + 1)

/-- Modelled from the spec: `jwtVerify`'s token check
(src/middleware/authMiddleware.js is not under src/) — spec §4.1: a pure
function of (token, secret, current time) that rejects a missing,
malformed, expired or signature-mismatched token, and otherwise yields
the identity encoded in the token. -/
def verifyToken (secret now : Nat) : TokenInput → Option UserId
  | .missing => none
  | .malformed => none
  | .signed uid exp sig =>
    if exp ≤ now then none
    else if sig = mkSig secret uid exp then some uid else none

/-- Outcome of connection admission. -/
inductive AdmitResult where
  | admitted (uid : UserId)
  | unauthenticated
deriving Repr, DecidableEq

/-- The `io.use` handshake middleware (part_001 lines 108-111): verify
the handshake token; a failed verification refuses the connection with
`Unauthenticated`, a successful one admits it with the token's identity. -/
def connAdmit (secret now : Nat) (t : TokenInput) : AdmitResult :=
  match verifyToken secret now t with
  | some uid => .admitted uid
  | none => .unauthenticated

/-- Whether the `io.on('connection')` callback — the only place the
per-connection event handlers (`join-room`, `disconnect`) are registered
— runs for this handshake outcome: Socket.IO runs it only for admitted
connections. -/
def handlersRegistered : AdmitResult → Bool
  | .admitted _ => true
  | .unauthenticated => false

/-! ### HTTP room endpoints -/

/-- A room document as constructed by POST /rooms/create
(src/routes/roomRoutes.js lines 12-16). -/
structure RoomDoc where
  name : String
  createdBy : UserId
  members : List UserId
deriving Repr, DecidableEq

/-- Outcome of `newRoom.save()` on the external document store. -/
inductive SaveOutcome where
  | success
  | failure
deriving Repr, DecidableEq

/-- HTTP response of the create-room handler: status code, the room
document sent on 201, the error message otherwise. -/
structure CreateResponse where
  status : Nat
  room : Option RoomDoc
  error : Option String
deriving Repr, DecidableEq

/-- JS truthiness test `!name` on the destructured string field `name`:
true when the field is absent (`undefined`) or the empty string. -/
def nameFalsy : Option String → Bool
  | none => true
  | some s => s = ""

/-- The POST /rooms/create handler (src/routes/roomRoutes.js lines 7-23)
after `authMiddleware` has attached `req.user.userId`: `if (!name)`
rejects a falsy name with 400; otherwise the handler builds the room
with the caller as creator and as sole member and saves it — 201 with
the document on success, 500 with "Server error" if `save()` throws. -/
def createRoomHandler (name : Option String) (userId : UserId)
    (save : SaveOutcome) : CreateResponse :=
  match name with
  | none => ⟨400, none, some "Room name is required"⟩
  | some n =>
    if n = "" then ⟨400, none, some "Room name is required"⟩
    else
      match save with
      | .success => ⟨201, some ⟨n, userId, [userId]⟩, none⟩
      | .failure => ⟨500, none, some "Server error"⟩

/-- Modelled from the spec: persistence of `newRoom.save()`
(src/models/Room.js is not under src/) — a successful save appends the
document to the store. -/
def saveRoom (store : List RoomDoc) (rm : RoomDoc) : List RoomDoc :=
  store ++ [rm]

/-- The create-room request at the store level: run the handler; exactly
a 201 outcome persists the document it responds with. -/
def createRoomRoute (store : List RoomDoc) (name : Option String)
    (userId : UserId) (save : SaveOutcome) :
    List RoomDoc × CreateResponse :=
  let resp := createRoomHandler name userId save
  match resp.room with
  | some rm => (saveRoom store rm, resp)
  | none => (store, resp)

/-- Modelled from the spec: the user lookup backing
`populate("createdBy", "username")` (src/models/Room.js and the User
model are not under src/) — resolve a user id to its stored username,
`none` when no such user document exists. -/
def resolveUser (users : List (UserId × String)) (uid : UserId) :
    Option String :=
  match users with
  | [] => none
  | (u, uname) :: rest => if u = uid then some uname else resolveUser rest uid

/-- A room as returned by GET /rooms after `populate`: creator and
member ids resolved to usernames. -/
structure PopulatedRoom where
  name : String
  createdBy : Option String
  members : List (Option String)
deriving Repr, DecidableEq

/-- The GET /rooms handler (src/routes/roomRoutes.js lines 25-34):
`Room.find()` returns every stored document, with `createdBy` and
`members` resolved to usernames. -/
def listRooms (users : List (UserId × String)) (store : List RoomDoc) :
    List PopulatedRoom :=
  store.map (fun rm =>
    ⟨rm.name, resolveUser users rm.createdBy, rm.members.map (resolveUser users)⟩)

/-! ### GET /health -/

/-- Response to GET /health: the status code and the JSON body's three
possible fields (`none` = the field is absent from the body). -/
structure HealthResponse where
  status : Nat
  bodyStatus : Option String
  bodyTimestamp : Option String
  bodyUptime : Option Nat
deriving Repr, DecidableEq

/-- GET /health in the part_000 server variant (lines 86-90):
`res.json({status:"ok", timestamp: ..., uptime: process.uptime()})`,
status code 200 (Express default). `now` is the serialized current time,
`up` the process uptime. -/
def healthHandler000 (now : String) (up : Nat) : HealthResponse :=
  ⟨200, some "ok", some now, some up⟩

/-- GET /health in the part_002 server variant (line 44):
`res.json({status:"ok"})`, status code 200 — the body has no timestamp
and no uptime field. -/
def healthHandler002 : HealthResponse :=
  ⟨200, some "ok", none, none⟩

/-- The body shape spec §6 promises for GET /health, stated from the
spec's words: a status field, a timestamp, and the process uptime. -/
def healthBodyComplete (h : HealthResponse) : Prop :=
  h.bodyStatus ≠ none ∧ h.bodyTimestamp ≠ none ∧ h.bodyUptime ≠ none

/-- Well-formedness of a relay state, maintained by every event: room
names in the adapter table are distinct, member lists hold no
duplicates (JS Sets), and a socket has a `webrtc-signal` listener for a
room exactly as often as it is a member of it (joins add both at once;
a disconnect removes both at once; nothing else touches either). -/
def WF (st : RelayState) : Prop :=
  (st.rooms.map Prod.fst).Nodup ∧
  (∀ r, (roomMembers st r).Nodup) ∧
  (∀ c r, c ∈ roomMembers st r → r ∈ handlerRooms st c) ∧
  (∀ c r, r ∈ handlerRooms st c → c ∈ roomMembers st r)

/-! ### Lookup lemmas for the handler table -/

theorem lookupHandlers_addHandler_self (hs : List (ConnId × List RoomName))
    (c : ConnId) (r : RoomName) :
    lookupHandlers (addHandler hs c r) c = lookupHandlers hs c ++ [r] := by
  induction hs with
  | nil => simp [addHandler, lookupHandlers]
  | cons p rest ih =>
    obtain ⟨c', rs⟩ := p
    by_cases hc : c' = c
    · subst hc; simp [addHandler, lookupHandlers]
    · simp [addHandler, lookupHandlers, hc, ih]

theorem lookupHandlers_addHandler_ne (hs : List (ConnId × List RoomName))
    {c c' : ConnId} (r : RoomName) (h : c' ≠ c) :
    lookupHandlers (addHandler hs c r) c' = lookupHandlers hs c' := by
  induction hs with
  | nil =>
    simp only [addHandler, lookupHandlers]
    rw [if_neg (Ne.symm h)]
  | cons p rest ih =>
    obtain ⟨c'', rs⟩ := p
    by_cases hc : c'' = c
    · subst hc
      simp only [addHandler, if_pos rfl, lookupHandlers]
      rw [if_neg (Ne.symm h), if_neg (Ne.symm h)]
    · simp only [addHandler, if_neg hc, lookupHandlers]
      by_cases hc' : c'' = c' <;> simp [hc', ih]

theorem lookupHandlers_erase_self (hs : List (ConnId × List RoomName))
    (c : ConnId) :
    lookupHandlers (hs.filter (fun p => p.1 ≠ c)) c = [] := by
  induction hs with
  | nil => rfl
  | cons p rest ih =>
    obtain ⟨c', rs⟩ := p
    by_cases hc : c' = c
    · subst hc
      simpa using ih
    · have hkeep : decide (c' ≠ c) = true := by simp [hc]
      simp only [List.filter_cons, hkeep, if_pos]
      simp only [lookupHandlers, if_neg hc]
      exact ih

theorem lookupHandlers_erase_ne (hs : List (ConnId × List RoomName))
    {c c' : ConnId} (h : c' ≠ c) :
    lookupHandlers (hs.filter (fun p => p.1 ≠ c)) c' = lookupHandlers hs c' := by
  induction hs with
  | nil => rfl
  | cons p rest ih =>
    obtain ⟨c'', rs⟩ := p
    by_cases hc : c'' = c
    · have hdrop : decide (c'' ≠ c) = false := by simp [hc]
      have hne : ¬(c'' = c') := by rw [hc]; exact Ne.symm h
      simp only [List.filter_cons, hdrop, Bool.false_eq_true, if_false,
        lookupHandlers, if_neg hne]
      exact ih
    · have hkeep : decide (c'' ≠ c) = true := by simp [hc]
      simp only [List.filter_cons, hkeep, if_pos, lookupHandlers]
      by_cases hc' : c'' = c'
      · rw [if_pos hc', if_pos hc']
      · rw [if_neg hc', if_neg hc']
        exact ih

/-! ### Lookup lemmas for the room table -/

theorem lookupRoom_socketJoin_self (rooms : List (RoomName × List ConnId))
    (c : ConnId) (r : RoomName) :
    lookupRoom (socketJoin rooms c r) r =
      (if c ∈ lookupRoom rooms r then lookupRoom rooms r
       else lookupRoom rooms r ++ [c]) := by
  induction rooms with
  | nil => simp [socketJoin, lookupRoom]
  | cons p rest ih =>
    obtain ⟨r', ms⟩ := p
    by_cases hr : r' = r
    · subst hr
      by_cases hc : c ∈ ms <;> simp [socketJoin, lookupRoom, hc]
    · simp [socketJoin, lookupRoom, hr, ih]

theorem lookupRoom_socketJoin_ne (rooms : List (RoomName × List ConnId))
    (c : ConnId) {r r' : RoomName} (h : r' ≠ r) :
    lookupRoom (socketJoin rooms c r) r' = lookupRoom rooms r' := by
  induction rooms with
  | nil =>
    simp only [socketJoin, lookupRoom]
    rw [if_neg (Ne.symm h)]
  | cons p rest ih =>
    obtain ⟨r'', ms⟩ := p
    by_cases hr : r'' = r
    · have hne : ¬(r'' = r') := by rw [hr]; exact Ne.symm h
      by_cases hc : c ∈ ms
      · simp only [socketJoin, if_pos hr, if_pos hc, lookupRoom, if_neg hne]
      · simp only [socketJoin, if_pos hr, if_neg hc, lookupRoom, if_neg hne]
    · simp only [socketJoin, if_neg hr, lookupRoom]
      by_cases hr' : r'' = r'
      · rw [if_pos hr', if_pos hr']
      · rw [if_neg hr', if_neg hr']
        exact ih

theorem mem_lookupRoom_socketJoin_old (rooms : List (RoomName × List ConnId))
    (c d : ConnId) (r r' : RoomName) (h : d ∈ lookupRoom rooms r') :
    d ∈ lookupRoom (socketJoin rooms c r) r' := by
  by_cases hr : r' = r
  · subst hr
    rw [lookupRoom_socketJoin_self]
    by_cases hc : c ∈ lookupRoom rooms r' <;> simp [hc, h]
  · rwa [lookupRoom_socketJoin_ne rooms c hr]

theorem mem_lookupRoom_socketJoin_new (rooms : List (RoomName × List ConnId))
    (c : ConnId) (r : RoomName) :
    c ∈ lookupRoom (socketJoin rooms c r) r := by
  rw [lookupRoom_socketJoin_self]
  by_cases hc : c ∈ lookupRoom rooms r <;> simp [hc]

theorem socketJoin_of_mem (rooms : List (RoomName × List ConnId))
    (c : ConnId) (r : RoomName) (h : c ∈ lookupRoom rooms r) :
    socketJoin rooms c r = rooms := by
  induction rooms with
  | nil => simp [lookupRoom] at h
  | cons p rest ih =>
    obtain ⟨r', ms⟩ := p
    by_cases hr : r' = r
    · subst hr
      have h' : c ∈ ms := by simpa [lookupRoom] using h
      simp [socketJoin, h']
    · rw [lookupRoom, if_neg hr] at h
      simp [socketJoin, hr, ih h]

theorem lookupRoom_eq_nil_of_not_mem_keys (rooms : List (RoomName × List ConnId))
    (r : RoomName) (h : r ∉ rooms.map Prod.fst) :
    lookupRoom rooms r = [] := by
  induction rooms with
  | nil => rfl
  | cons p rest ih =>
    obtain ⟨r', ms⟩ := p
    simp only [List.map_cons, List.mem_cons] at h
    push_neg at h
    rw [lookupRoom, if_neg (fun hh => h.1 hh.symm)]
    exact ih h.2

theorem lookupRoom_of_mem (rooms : List (RoomName × List ConnId))
    {r : RoomName} {ms : List ConnId} (hnd : (rooms.map Prod.fst).Nodup)
    (h : (r, ms) ∈ rooms) : lookupRoom rooms r = ms := by
  induction rooms with
  | nil => simp at h
  | cons p rest ih =>
    obtain ⟨r', ms'⟩ := p
    simp only [List.map_cons, List.nodup_cons] at hnd
    rcases List.mem_cons.mp h with heq | htail
    · injection heq.symm with h1 h2
      subst h1
      subst h2
      simp [lookupRoom]
    · have hr : r' ≠ r := by
        intro hh
        subst hh
        exact hnd.1 (List.mem_map.mpr ⟨(r', ms), htail, rfl⟩)
      simp only [lookupRoom, if_neg hr]
      exact ih hnd.2 htail

/-! ### Disconnect cleanup lemmas -/

theorem not_mem_lookupRoom_cleanup (rooms : List (RoomName × List ConnId))
    (c : ConnId) (r : RoomName) :
    c ∉ lookupRoom ((rooms.map (fun p => (p.1, p.2.filter (· ≠ c)))).filter
      (fun p => !p.2.isEmpty)) r := by
  induction rooms with
  | nil => simp [lookupRoom]
  | cons p rest ih =>
    obtain ⟨r', ms⟩ := p
    simp only [List.map_cons, List.filter_cons]
    by_cases hk : (!(ms.filter (· ≠ c)).isEmpty) = true
    · rw [if_pos hk]
      by_cases hr : r' = r
      · simp only [lookupRoom, if_pos hr]
        simp
      · simp only [lookupRoom, if_neg hr]
        exact ih
    · rw [if_neg hk]
      exact ih

theorem lookupRoom_cleanup (rooms : List (RoomName × List ConnId))
    (c : ConnId) (r : RoomName) (hnd : (rooms.map Prod.fst).Nodup) :
    lookupRoom ((rooms.map (fun p => (p.1, p.2.filter (· ≠ c)))).filter
      (fun p => !p.2.isEmpty)) r = (lookupRoom rooms r).filter (· ≠ c) := by
  induction rooms with
  | nil => simp [lookupRoom]
  | cons p rest ih =>
    obtain ⟨r', ms⟩ := p
    simp only [List.map_cons, List.nodup_cons] at hnd
    simp only [List.map_cons, List.filter_cons]
    by_cases hk : (!(ms.filter (· ≠ c)).isEmpty) = true
    · rw [if_pos hk]
      simp only [lookupRoom]
      by_cases hr : r' = r
      · rw [if_pos hr, if_pos hr]
      · rw [if_neg hr, if_neg hr]
        exact ih hnd.2
    · rw [if_neg hk]
      by_cases hr : r' = r
      · have hisE : (ms.filter (· ≠ c)).isEmpty = true := by simpa using hk
        have hempty : ms.filter (· ≠ c) = [] := List.isEmpty_iff.mp hisE
        have hnil : lookupRoom rest r = [] := by
          apply lookupRoom_eq_nil_of_not_mem_keys
          rw [← hr]
          exact hnd.1
        simp only [lookupRoom, if_pos hr]
        rw [ih hnd.2, hnil, hempty]
        simp
      · simp only [lookupRoom, if_neg hr]
        exact ih hnd.2

theorem keys_cleanup_sublist (rooms : List (RoomName × List ConnId))
    (c : ConnId) :
    List.Sublist (((rooms.map (fun p => (p.1, p.2.filter (· ≠ c)))).filter
      (fun p => !p.2.isEmpty)).map Prod.fst) (rooms.map Prod.fst) := by
  induction rooms with
  | nil => simp
  | cons p rest ih =>
    obtain ⟨r', ms⟩ := p
    simp only [List.map_cons, List.filter_cons]
    by_cases hk : (!(ms.filter (· ≠ c)).isEmpty) = true
    · rw [if_pos hk]
      simp only [List.map_cons]
      exact List.Sublist.cons₂ r' ih
    · rw [if_neg hk]
      exact List.Sublist.cons r' ih

/-! ### Keys of the room table under join -/

theorem keys_socketJoin (rooms : List (RoomName × List ConnId))
    (c : ConnId) (r : RoomName) :
    (socketJoin rooms c r).map Prod.fst =
      (if r ∈ rooms.map Prod.fst then rooms.map Prod.fst
       else rooms.map Prod.fst ++ [r]) := by
  induction rooms with
  | nil => simp [socketJoin]
  | cons p rest ih =>
    obtain ⟨r', ms⟩ := p
    by_cases hr : r' = r
    · have hm : r ∈ r' :: List.map Prod.fst rest :=
        List.mem_cons.mpr (Or.inl hr.symm)
      by_cases hc : c ∈ ms
      · simp only [socketJoin, if_pos hr, if_pos hc, List.map_cons]
        rw [if_pos hm]
      · simp only [socketJoin, if_pos hr, if_neg hc, List.map_cons]
        rw [if_pos hm]
    · simp only [socketJoin, if_neg hr, List.map_cons, ih]
      by_cases hmem : r ∈ List.map Prod.fst rest
      · rw [if_pos hmem, if_pos (List.mem_cons.mpr (Or.inr hmem))]
      · have hnotin : r ∉ r' :: List.map Prod.fst rest := by
          intro hh
          rcases List.mem_cons.mp hh with h1 | h2
          · exact hr h1.symm
          · exact hmem h2
        rw [if_neg hmem, if_neg hnotin, List.cons_append]

theorem keys_nodup_socketJoin (rooms : List (RoomName × List ConnId))
    (c : ConnId) (r : RoomName) (h : (rooms.map Prod.fst).Nodup) :
    ((socketJoin rooms c r).map Prod.fst).Nodup := by
  rw [keys_socketJoin]
  by_cases hmem : r ∈ rooms.map Prod.fst
  · rwa [if_pos hmem]
  · rw [if_neg hmem]
    simp [List.nodup_append, h, hmem]

/-! ### State-level restatements -/

theorem roomMembers_joinRoom_self (st : RelayState) (c : ConnId) (r : RoomName) :
    roomMembers (joinRoom st c r) r =
      (if c ∈ roomMembers st r then roomMembers st r
       else roomMembers st r ++ [c]) :=
  lookupRoom_socketJoin_self st.rooms c r

theorem roomMembers_joinRoom_ne (st : RelayState) (c : ConnId)
    {r r' : RoomName} (h : r' ≠ r) :
    roomMembers (joinRoom st c r) r' = roomMembers st r' :=
  lookupRoom_socketJoin_ne st.rooms c h

theorem handlerRooms_joinRoom_self (st : RelayState) (c : ConnId) (r : RoomName) :
    handlerRooms (joinRoom st c r) c = handlerRooms st c ++ [r] :=
  lookupHandlers_addHandler_self st.handlers c r

theorem handlerRooms_joinRoom_ne (st : RelayState) {c c' : ConnId}
    (r : RoomName) (h : c' ≠ c) :
    handlerRooms (joinRoom st c r) c' = handlerRooms st c' :=
  lookupHandlers_addHandler_ne st.handlers r h

theorem roomMembers_disconnect (st : RelayState) (c : ConnId) (r : RoomName)
    (hnd : (st.rooms.map Prod.fst).Nodup) :
    roomMembers (disconnect st c) r = (roomMembers st r).filter (· ≠ c) :=
  lookupRoom_cleanup st.rooms c r hnd

theorem not_mem_roomMembers_disconnect (st : RelayState) (c : ConnId)
    (r : RoomName) : c ∉ roomMembers (disconnect st c) r :=
  not_mem_lookupRoom_cleanup st.rooms c r

theorem handlerRooms_disconnect_self (st : RelayState) (c : ConnId) :
    handlerRooms (disconnect st c) c = [] :=
  lookupHandlers_erase_self st.handlers c

theorem handlerRooms_disconnect_ne (st : RelayState) {c c' : ConnId}
    (h : c' ≠ c) :
    handlerRooms (disconnect st c) c' = handlerRooms st c' :=
  lookupHandlers_erase_ne st.handlers h

/-! ### The well-formedness invariant holds in every reachable state -/

theorem WF_init : WF RelayState.init := by
  refine ⟨by simp [RelayState.init], ?_, ?_, ?_⟩ <;>
    simp [RelayState.init, roomMembers, handlerRooms, lookupRoom, lookupHandlers]

theorem WF_joinRoom {st : RelayState} (h : WF st) (c : ConnId) (r : RoomName) :
    WF (joinRoom st c r) := by
  obtain ⟨hkeys, hnodup, hmh, hhm⟩ := h
  refine ⟨keys_nodup_socketJoin st.rooms c r hkeys, ?_, ?_, ?_⟩
  · intro r'
    by_cases hr : r' = r
    · subst hr
      rw [roomMembers_joinRoom_self]
      by_cases hc : c ∈ roomMembers st r'
      · rw [if_pos hc]
        exact hnodup r'
      · rw [if_neg hc]
        simp [List.nodup_append, hnodup r', hc]
    · rw [roomMembers_joinRoom_ne st c hr]
      exact hnodup r'
  · intro d r' hd
    by_cases hr : r' = r
    · subst hr
      by_cases hdc : d = c
      · subst hdc
        rw [handlerRooms_joinRoom_self]
        simp
      · rw [handlerRooms_joinRoom_ne st r' hdc]
        apply hmh
        rw [roomMembers_joinRoom_self] at hd
        by_cases hc : c ∈ roomMembers st r'
        · rwa [if_pos hc] at hd
        · rw [if_neg hc] at hd
          rcases List.mem_append.mp hd with h1 | h2
          · exact h1
          · exact absurd (List.mem_singleton.mp h2) hdc
    · rw [roomMembers_joinRoom_ne st c hr] at hd
      by_cases hdc : d = c
      · subst hdc
        rw [handlerRooms_joinRoom_self]
        exact List.mem_append.mpr (Or.inl (hmh d r' hd))
      · rw [handlerRooms_joinRoom_ne st r hdc]
        exact hmh d r' hd
  · intro d r' hr'
    by_cases hdc : d = c
    · subst hdc
      rw [handlerRooms_joinRoom_self] at hr'
      rcases List.mem_append.mp hr' with h1 | h2
      · have hold := hhm d r' h1
        by_cases hr : r' = r
        · subst hr
          rw [roomMembers_joinRoom_self]
          by_cases hc : d ∈ roomMembers st r'
          · rwa [if_pos hc]
          · rw [if_neg hc]
            exact List.mem_append.mpr (Or.inl hold)
        · rwa [roomMembers_joinRoom_ne st d hr]
      · have hr : r' = r := List.mem_singleton.mp h2
        subst hr
        rw [roomMembers_joinRoom_self]
        by_cases hc : d ∈ roomMembers st r'
        · rwa [if_pos hc]
        · rw [if_neg hc]
          simp
    · rw [handlerRooms_joinRoom_ne st r hdc] at hr'
      have hold := hhm d r' hr'
      by_cases hr : r' = r
      · subst hr
        rw [roomMembers_joinRoom_self]
        by_cases hc : c ∈ roomMembers st r'
        · rwa [if_pos hc]
        · rw [if_neg hc]
          exact List.mem_append.mpr (Or.inl hold)
      · rwa [roomMembers_joinRoom_ne st c hr]

theorem WF_disconnect {st : RelayState} (h : WF st) (c : ConnId) :
    WF (disconnect st c) := by
  obtain ⟨hkeys, hnodup, hmh, hhm⟩ := h
  refine ⟨List.Nodup.sublist (keys_cleanup_sublist st.rooms c) hkeys, ?_, ?_, ?_⟩
  · intro r
    rw [roomMembers_disconnect st c r hkeys]
    exact List.Nodup.filter _ (hnodup r)
  · intro d r hd
    rw [roomMembers_disconnect st c r hkeys] at hd
    have hd' := List.mem_filter.mp hd
    have hdc : d ≠ c := by simpa using hd'.2
    rw [handlerRooms_disconnect_ne st hdc]
    exact hmh d r hd'.1
  · intro d r hr
    by_cases hdc : d = c
    · subst hdc
      rw [handlerRooms_disconnect_self] at hr
      simp at hr
    · rw [handlerRooms_disconnect_ne st hdc] at hr
      rw [roomMembers_disconnect st c r hkeys]
      refine List.mem_filter.mpr ⟨hhm d r hr, by simpa using hdc⟩

theorem WF_step {st : RelayState} (h : WF st) (e : Event) : WF (step st e) := by
  cases e with
  | join c r => exact WF_joinRoom h c r
  | disc c => exact WF_disconnect h c

theorem WF_run (es : List Event) : WF (run es) := by
  suffices h : ∀ st, WF st → WF (es.foldl step st) from h _ WF_init
  induction es with
  | nil => intro st h; exact h
  | cons e rest ih =>
    intro st h
    exact ih _ (WF_step h e)

/-! ### Listener rooms along a trace -/

theorem handlerRooms_foldl (es : List Event) (c : ConnId) :
    ∀ st : RelayState,
      handlerRooms (es.foldl step st) c = hFold c es (handlerRooms st c) := by
  induction es with
  | nil => intro st; rfl
  | cons e rest ih =>
    intro st
    cases e with
    | join c' r =>
      simp only [List.foldl_cons, step, hFold]
      rw [ih]
      by_cases hc : c' = c
      · subst hc
        rw [if_pos rfl, handlerRooms_joinRoom_self]
      · rw [if_neg hc, handlerRooms_joinRoom_ne st r (Ne.symm hc)]
    | disc c' =>
      simp only [List.foldl_cons, step, hFold]
      rw [ih]
      by_cases hc : c' = c
      · subst hc
        rw [if_pos rfl, handlerRooms_disconnect_self]
      · rw [if_neg hc, handlerRooms_disconnect_ne st (Ne.symm hc)]

theorem handlerRooms_run (es : List Event) (c : ConnId) :
    handlerRooms (run es) c = joinsOf es c :=
  handlerRooms_foldl es c RelayState.init

theorem dispatchSignal_run_eq {σ : Type} (es : List Event) (c : ConnId) (s : σ) :
    dispatchSignal (run es) c s =
      (joinsOf es c).flatMap
        (fun r => (socketTo (run es) c r).map (fun d => (d, s))) := by
  unfold dispatchSignal
  rw [handlerRooms_run]

theorem mem_dispatchSignal_of {σ : Type} (st : RelayState) (c : ConnId)
    (r : RoomName) (s : σ) (d : ConnId) (hr : r ∈ handlerRooms st c)
    (hd : d ∈ roomMembers st r) (hne : d ≠ c) :
    (d, s) ∈ dispatchSignal st c s := by
  unfold dispatchSignal
  refine List.mem_flatMap.mpr ⟨r, hr, ?_⟩
  refine List.mem_map.mpr ⟨d, ?_, rfl⟩
  simp [socketTo, List.mem_filter, hd, hne]

theorem dispatchSignal_fst_ne {σ : Type} (st : RelayState) (c : ConnId)
    (s : σ) : ∀ p ∈ dispatchSignal st c s, p.1 ≠ c := by
  intro p hp
  unfold dispatchSignal at hp
  rcases List.mem_flatMap.mp hp with ⟨r, hr, hp2⟩
  rcases List.mem_map.mp hp2 with ⟨d, hd, rfl⟩
  simp only [socketTo, List.mem_filter] at hd
  simpa using hd.2

/-! ## The claims -/

/-- C1: a connection `c` that is a member of channel `r` and sends signal
`s` has `s` delivered unmodified (the very same payload value, of an
arbitrary opaque type) to every other current member of `r`, and `c`
itself never receives its own `s`. Stated over every reachable relay
state. -/
theorem relay_delivers_to_others {σ : Type} (es : List Event) (c : ConnId)
    (r : RoomName) (s : σ) (hmem : c ∈ roomMembers (run es) r) :
    (∀ d, d ∈ roomMembers (run es) r → d ≠ c →
      (d, s) ∈ dispatchSignal (run es) c s) ∧
    (∀ p ∈ dispatchSignal (run es) c s, p.1 ≠ c) := by
  have hwf := WF_run es
  refine ⟨?_, dispatchSignal_fst_ne _ _ _⟩
  intro d hd hne
  exact mem_dispatchSignal_of _ c r s d (hwf.2.2.1 c r hmem) hd hne

/-- Witness for C1: connections 1 and 2 both join "a"; a signal from 1
reaches 2 and is never delivered back to 1. -/
theorem relay_delivers_to_others_witness :
    (2, 42) ∈ dispatchSignal (run [Event.join 1 "a", Event.join 2 "a"]) 1 (42 : Nat) ∧
    (1, 42) ∉ dispatchSignal (run [Event.join 1 "a", Event.join 2 "a"]) 1 (42 : Nat) :=
  ⟨(relay_delivers_to_others [Event.join 1 "a", Event.join 2 "a"] 1 "a" 42
      (by decide)).1 2 (by decide) (by decide),
   fun h =>
    (relay_delivers_to_others [Event.join 1 "a", Event.join 2 "a"] 1 "a" 42
      (by decide)).2 (1, 42) h rfl⟩

/-- Counterexample to C2: connection 2 joins "a" and then "b" (its most
recently joined channel is "b"), yet its signal is delivered to
connection 1, a member only of "a" — the relay does NOT target only the
most recently joined channel. -/
theorem relay_most_recent_counterexample :
    (joinsOf [Event.join 1 "a", Event.join 2 "a", Event.join 2 "b"] 2).getLast?
      = some "b" ∧
    (1, 0) ∈ dispatchSignal
      (run [Event.join 1 "a", Event.join 2 "a", Event.join 2 "b"]) 2 (0 : Nat) ∧
    1 ∉ roomMembers
      (run [Event.join 1 "a", Event.join 2 "a", Event.join 2 "b"]) "b" := by
  decide

/-- C2 (amended): a `webrtc-signal` event is relayed once per `join-room`
event the connection has issued in its lifetime, each relay targeting
the channel captured at that join; it is relayed to exactly one channel
only when the connection's lifetime joins name a single channel. -/
theorem relay_targets_every_join {σ : Type} (es : List Event) (c : ConnId)
    (s : σ) :
    dispatchSignal (run es) c s =
      (joinsOf es c).flatMap
        (fun r => (socketTo (run es) c r).map (fun d => (d, s))) ∧
    (∀ r, joinsOf es c = [r] →
      dispatchSignal (run es) c s =
        (socketTo (run es) c r).map (fun d => (d, s))) := by
  refine ⟨dispatchSignal_run_eq es c s, ?_⟩
  intro r hr
  rw [dispatchSignal_run_eq es c s, hr]
  simp

/-- Witness for C2 (amended): a connection with a single join relays to
exactly that channel. -/
theorem relay_targets_every_join_witness :
    dispatchSignal (run [Event.join 1 "a", Event.join 2 "a"]) 2 (5 : Nat) =
      (socketTo (run [Event.join 1 "a", Event.join 2 "a"]) 2 "a").map
        (fun d => (d, 5)) :=
  (relay_targets_every_join [Event.join 1 "a", Event.join 2 "a"] 2 5).2 "a"
    (by decide)

/-- C3: each `join-room` event of a connection registers one more
`webrtc-signal` handler capturing that join's room — the handler list
equals the connection's lifetime join list, repeats included — and a
`webrtc-signal` event is dispatched once per registered handler, each
dispatch sending to the other members of the room captured at that
join; repeated joins of the same room hence duplicate delivery. -/
theorem signal_dispatched_once_per_join {σ : Type} (es : List Event)
    (c : ConnId) (s : σ) :
    handlerRooms (run es) c = joinsOf es c ∧
    dispatchSignal (run es) c s =
      (joinsOf es c).flatMap
        (fun r => (socketTo (run es) c r).map (fun d => (d, s))) :=
  ⟨handlerRooms_run es c, dispatchSignal_run_eq es c s⟩

/-- C4: a handshake whose token fails verification (missing, malformed,
expired or signature-mismatched) is refused with `Unauthenticated`,
never reaches the Admitted state and never has its connection-level
handlers registered; a handshake whose token verifies is admitted with
exactly the identity encoded in the token. -/
theorem connAdmit_spec (secret now : Nat) (t : TokenInput) :
    (verifyToken secret now t = none →
      connAdmit secret now t = AdmitResult.unauthenticated ∧
      (∀ uid, connAdmit secret now t ≠ AdmitResult.admitted uid) ∧
      handlersRegistered (connAdmit secret now t) = false) ∧
    (∀ uid, verifyToken secret now t = some uid →
      connAdmit secret now t = AdmitResult.admitted uid) ∧
    (∀ uid exp sig u, t = TokenInput.signed uid exp sig →
      verifyToken secret now t = some u → u = uid) ∧
    verifyToken secret now TokenInput.missing = none ∧
    verifyToken secret now TokenInput.malformed = none ∧
    (∀ uid exp sig, exp ≤ now →
      verifyToken secret now (TokenInput.signed uid exp sig) = none) ∧
    (∀ uid exp sig, sig ≠ mkSig secret uid exp →
      verifyToken secret now (TokenInput.signed uid exp sig) = none) := by
  refine ⟨?_, ?_, ?_, rfl, rfl, ?_, ?_⟩
  · intro h
    refine ⟨?_, ?_, ?_⟩ <;> simp [connAdmit, h, handlersRegistered]
  · intro uid h
    simp [connAdmit, h]
  · intro uid exp sig u ht h
    subst ht
    simp only [verifyToken] at h
    by_cases h1 : exp ≤ now
    · rw [if_pos h1] at h
      exact absurd h (by simp)
    · rw [if_neg h1] at h
      by_cases h2 : sig = mkSig secret uid exp
      · rw [if_pos h2] at h
        injection h with h3
        exact h3.symm
      · rw [if_neg h2] at h
        exact absurd h (by simp)
  · intro uid exp sig h
    simp [verifyToken, h]
  · intro uid exp sig h
    simp [verifyToken, h]

/-- Witness for C4: a missing token is refused without handler
registration; a well-signed unexpired token is admitted with its encoded
identity. -/
theorem connAdmit_spec_witness :
    connAdmit 5 10 TokenInput.missing = AdmitResult.unauthenticated ∧
    handlersRegistered (connAdmit 5 10 TokenInput.missing) = false ∧
    connAdmit 5 10 (TokenInput.signed 3 20 (mkSig 5 3 20)) = AdmitResult.admitted 3 :=
  ⟨((connAdmit_spec 5 10 TokenInput.missing).1 rfl).1,
   ((connAdmit_spec 5 10 TokenInput.missing).1 rfl).2.2,
   (connAdmit_spec 5 10 (TokenInput.signed 3 20 (mkSig 5 3 20))).2.1 3 (by decide)⟩

/-- C5: join is idempotent on membership — after joining, the connection
appears in the room's member list exactly once, and joining again
leaves the adapter's membership table unchanged. Stated over every
reachable relay state. -/
theorem join_idempotent_membership (es : List Event) (c : ConnId)
    (r : RoomName) :
    (roomMembers (joinRoom (run es) c r) r).count c = 1 ∧
    (joinRoom (joinRoom (run es) c r) c r).rooms =
      (joinRoom (run es) c r).rooms := by
  have hwf := WF_joinRoom (WF_run es) c r
  constructor
  · exact List.count_eq_one_of_mem (hwf.2.1 r)
      (mem_lookupRoom_socketJoin_new (run es).rooms c r)
  · show socketJoin (joinRoom (run es) c r).rooms c r =
      (joinRoom (run es) c r).rooms
    exact socketJoin_of_mem _ c r (mem_lookupRoom_socketJoin_new (run es).rooms c r)

/-- C6: after a disconnect the connection is a member of zero channels,
no channel in the active set is empty, and a channel whose sole member
was the disconnected connection is removed from the active channel set.
Stated over every reachable relay state. -/
theorem disconnect_cleans_up (es : List Event) (c : ConnId) :
    (∀ r, c ∉ roomMembers (disconnect (run es) c) r) ∧
    (∀ p ∈ (disconnect (run es) c).rooms, p.2 ≠ []) ∧
    (∀ r, roomMembers (run es) r = [c] →
      r ∉ activeChannels (disconnect (run es) c)) := by
  have hwf := WF_run es
  refine ⟨fun r => not_mem_roomMembers_disconnect _ c r, ?_, ?_⟩
  · intro p hp
    have h2 := (List.mem_filter.mp hp).2
    intro hnil
    rw [hnil] at h2
    simp at h2
  · intro r hr hactive
    rcases List.mem_map.mp hactive with ⟨p, hp, hfst⟩
    have hpf := List.mem_filter.mp hp
    rcases List.mem_map.mp hpf.1 with ⟨q, hq, hfq⟩
    have hq1 : q.1 = r := by rw [← hfst, ← hfq]
    have hq' : (r, q.2) ∈ (run es).rooms := by
      rw [← hq1]
      simpa using hq
    have hlk : lookupRoom (run es).rooms r = q.2 :=
      lookupRoom_of_mem _ hwf.1 hq'
    have hq2 : q.2 = [c] := by
      rw [← hlk]
      exact hr
    have hp2 : p.2 = [] := by
      rw [← hfq]
      simp [hq2]
    have h2 := hpf.2
    rw [hp2] at h2
    simp at h2

/-- Witness for C6: after connection 1 (sole member of "x") disconnects,
it belongs to no channel and "x" is gone from the active set. -/
theorem disconnect_cleans_up_witness :
    1 ∉ roomMembers (disconnect (run [Event.join 1 "x"]) 1) "x" ∧
    "x" ∉ activeChannels (disconnect (run [Event.join 1 "x"]) 1) :=
  ⟨(disconnect_cleans_up [Event.join 1 "x"] 1).1 "x",
   (disconnect_cleans_up [Event.join 1 "x"] 1).2.2 "x" (by decide)⟩

/-- C7: a relay with nobody to deliver to is a silent no-op — the
`webrtc-signal` handler never modifies the relay state, a connection
that is a member of no channel produces no deliveries, and a connection
each of whose captured rooms has no other member (e.g. a sole member)
produces no deliveries; no error is surfaced in any of these cases
(dispatch is total). Stated over every reachable relay state. -/
theorem relay_non_member_noop {σ : Type} (es : List Event) (c : ConnId)
    (s : σ) :
    (relayStep (run es) c s).1 = run es ∧
    ((∀ r, c ∉ roomMembers (run es) r) → dispatchSignal (run es) c s = []) ∧
    ((∀ r ∈ handlerRooms (run es) c, socketTo (run es) c r = []) →
      dispatchSignal (run es) c s = []) := by
  have hwf := WF_run es
  refine ⟨rfl, ?_, ?_⟩
  · intro h
    have hnil : handlerRooms (run es) c = [] := by
      apply List.eq_nil_iff_forall_not_mem.mpr
      intro r hr
      exact h r (hwf.2.2.2 c r hr)
    unfold dispatchSignal
    rw [hnil]
    rfl
  · intro h
    unfold dispatchSignal
    apply List.flatMap_eq_nil_iff.mpr
    intro r hr
    rw [h r hr]
    rfl

/-- Witness for C7, the spec's scenario: connection 1 joins "room42" and
disconnects; connection 2 later joins "room42" and signals — no
delivery occurs and the relay state is untouched. -/
theorem relay_non_member_noop_witness :
    dispatchSignal
      (run [Event.join 1 "room42", Event.disc 1, Event.join 2 "room42"]) 2
      (0 : Nat) = [] ∧
    (relayStep
      (run [Event.join 1 "room42", Event.disc 1, Event.join 2 "room42"]) 2
      (0 : Nat)).1 =
      run [Event.join 1 "room42", Event.disc 1, Event.join 2 "room42"] :=
  ⟨(relay_non_member_noop
      [Event.join 1 "room42", Event.disc 1, Event.join 2 "room42"] 2 0).2.2
      (by decide),
   (relay_non_member_noop
      [Event.join 1 "room42", Event.disc 1, Event.join 2 "room42"] 2 0).1⟩

/-- Counterexample to C8: an authenticated request whose body carries the
`name` field with the empty string — a present name — gets 400, not
201: `if (!name)` treats the empty string like a missing name. -/
theorem create_room_empty_string_counterexample :
    (createRoomHandler (some "") 7 SaveOutcome.success).status = 400 ∧
    (createRoomHandler (some "") 7 SaveOutcome.success).status ≠ 201 := by
  decide

/-- C8 (amended): with an authenticated caller, POST /rooms/create
returns 400 when the body's name is missing or empty, 201 with the
created room — creator the caller, members exactly the caller — when a
nonempty name is present and the save succeeds, and 500 on storage
failure. -/
theorem create_room_spec (userId : UserId) :
    (∀ name, nameFalsy name = true →
      ∀ save, createRoomHandler name userId save =
        ⟨400, none, some "Room name is required"⟩) ∧
    (∀ n, n ≠ "" →
      createRoomHandler (some n) userId SaveOutcome.success =
        ⟨201, some ⟨n, userId, [userId]⟩, none⟩) ∧
    (∀ n, n ≠ "" →
      createRoomHandler (some n) userId SaveOutcome.failure =
        ⟨500, none, some "Server error"⟩) := by
  refine ⟨?_, ?_, ?_⟩
  · intro name h save
    cases name with
    | none => rfl
    | some s =>
      have hs : s = "" := by simpa [nameFalsy] using h
      subst hs
      simp [createRoomHandler]
  · intro n h
    simp [createRoomHandler, h]
  · intro n h
    simp [createRoomHandler, h]

/-- Witness for C8 (amended): concrete 400, 201 and 500 responses. -/
theorem create_room_spec_witness :
    createRoomHandler (some "") 7 SaveOutcome.success =
      ⟨400, none, some "Room name is required"⟩ ∧
    createRoomHandler (some "Algo") 7 SaveOutcome.success =
      ⟨201, some ⟨"Algo", 7, [7]⟩, none⟩ ∧
    createRoomHandler (some "Algo") 7 SaveOutcome.failure =
      ⟨500, none, some "Server error"⟩ :=
  ⟨(create_room_spec 7).1 (some "") (by decide) SaveOutcome.success,
   (create_room_spec 7).2.1 "Algo" (by decide),
   (create_room_spec 7).2.2 "Algo" (by decide)⟩

/-- C9: after a successful createRoom("Algorithms", userX), listRooms
returns a list containing a room named "Algorithms" whose createdBy
resolves to userX's identity and whose members contain userX. -/
theorem create_then_list_roundtrip (store : List RoomDoc)
    (users : List (UserId × String)) (uidX : UserId) (unameX : String)
    (hu : resolveUser users uidX = some unameX) :
    ∃ pr ∈ listRooms users
      (createRoomRoute store (some "Algorithms") uidX SaveOutcome.success).1,
      pr.name = "Algorithms" ∧ pr.createdBy = some unameX ∧
        some unameX ∈ pr.members := by
  have hroute : (createRoomRoute store (some "Algorithms") uidX
      SaveOutcome.success).1 = store ++ [⟨"Algorithms", uidX, [uidX]⟩] := rfl
  refine ⟨⟨"Algorithms", resolveUser users uidX,
    [resolveUser users uidX]⟩, ?_, rfl, hu, ?_⟩
  · rw [hroute]
    unfold listRooms
    exact List.mem_map.mpr ⟨⟨"Algorithms", uidX, [uidX]⟩, by simp, rfl⟩
  · rw [hu]
    simp

/-- Witness for C9: user 7 ("alice") creates "Algorithms" in an empty
store; the listing shows it with creator and member resolved to alice. -/
theorem create_then_list_roundtrip_witness :
    ∃ pr ∈ listRooms [(7, "alice")]
      (createRoomRoute [] (some "Algorithms") 7 SaveOutcome.success).1,
      pr.name = "Algorithms" ∧ pr.createdBy = some "alice" ∧
        some "alice" ∈ pr.members :=
  create_then_list_roundtrip [] [(7, "alice")] 7 "alice" (by decide)

/-- Counterexample to C10: the part_002 server variant's GET /health
response body has no timestamp and no uptime field, so not every
/health response contains status, timestamp and uptime. -/
theorem health_body_counterexample :
    healthHandler002.status = 200 ∧ ¬ healthBodyComplete healthHandler002 := by
  constructor
  · rfl
  · intro h
    exact h.2.1 rfl

/-- C10 (amended): GET /health returns 200 in both server variants; the
part_000 variant's body carries status, timestamp and uptime, while the
part_002 variant's body carries only the status field. -/
theorem health_spec (now : String) (up : Nat) :
    (healthHandler000 now up).status = 200 ∧
    healthBodyComplete (healthHandler000 now up) ∧
    (healthHandler000 now up).bodyStatus = some "ok" ∧
    (healthHandler000 now up).bodyTimestamp = some now ∧
    (healthHandler000 now up).bodyUptime = some up ∧
    healthHandler002.status = 200 ∧
    healthHandler002.bodyStatus = some "ok" ∧
    healthHandler002.bodyTimestamp = none ∧
    healthHandler002.bodyUptime = none := by
  refine ⟨rfl, ⟨?_, ?_, ?_⟩, rfl, rfl, rfl, rfl, rfl, rfl, rfl⟩ <;>
    simp [healthBodyComplete, healthHandler000]

end StudyPlatform
